import Mathlib

/-!
Shallow embedding of `utoipauto-core/src/discover.rs` (the discovery and
classification core of utoipauto) and proofs of its specified properties.

Modelling conventions:
- `syn::Path` values (namespace paths and fully-qualified reference paths)
  are `List String`, one element per path segment, root-first.
- A `syn::Attribute` is modelled by its meta path (segments) together with
  the result of `parse_args_with(Punctuated::<Meta, Token![,]>::parse_terminated)`:
  `some metas` when the nested comma-separated meta list parses, `none` when
  parsing would fail (not list form, or malformed tokens). Each nested meta
  is represented by its path segments, which is all the code inspects.
- Rust panics (`unwrap_or_else(panic)` on the file collector, `expect` on
  the derive-argument parse) become `Except.error`, so fatal aborts are
  explicit and "no partial result" is provable.
- The file collector (`parse_files` / `extract_module_name_from_path` in
  `file_utils.rs`, an external collaborator) is modelled as an input:
  `none` when the collector fails, `some` pairs of (namespace-root path,
  parsed top-level items) otherwise.
-/

/-- Configuration record `Parameters` from `token_utils.rs`: the three
configurable marker names threaded read-only through discovery. -/
structure Parameters where
  fn_attribute_name : String
  schema_attribute_name : String
  response_attribute_name : String
deriving Repr, DecidableEq

/-- One attached annotation: its meta path segments, and its parsed nested
meta paths (`some` iff `attr.parse_args_with(...)` succeeds). -/
structure Attr where
  path : List String
  args : Option (List (List String))
deriving Repr, DecidableEq

/-- A function declaration: `ItemFn`'s attributes and `sig.ident`. -/
structure ItemFn where
  attrs : List Attr
  name : String
deriving Repr, DecidableEq

/-- An implementation block: `ItemImpl`'s attributes (present in the syntax
tree but never inspected by the discovery code), its optional trait path
segments, and the name of its self type. -/
structure ItemImpl where
  attrs : List Attr
  trait_ : Option (List String)
  self_ty : String
deriving Repr, DecidableEq

/-- Declaration shapes of `syn::Item` that the walker distinguishes; `other`
stands for every other `Item` variant, which the code ignores outright. -/
inductive Item where
  | mod (name : String) (content : Option (List Item))
  | fn (f : ItemFn)
  | struct (name : String) (generics : List String) (attrs : List Attr)
  | enum (name : String) (generics : List String) (attrs : List Attr)
  | impl (im : ItemImpl)
  | other
deriving Repr

/-- Tagged classification of one discovered declaration (`enum DiscoverType`). -/
inductive DiscoverType where
  | Fn (n : List String)
  | Model (n : List String)
  | Response (n : List String)
  | CustomModelImpl (n : List String)
  | CustomResponseImpl (n : List String)
deriving Repr, DecidableEq

/-- Semantics of `syn::Path::is_ident` / `get_ident`-then-`eq`: the path is a
single plain segment equal to the given string. -/
def isIdent (p : List String) (s : String) : Bool :=
  match p with
  | [seg] => seg == s
  | _ => false

/-- Path builder `build_path`: append the declaration's name to the path. -/
def build_path (file_path : List String) (fn_name : String) : List String :=
  file_path ++ [fn_name]

/-- Predicate `is_ignored`: some attribute's path is the single ident
`utoipa_ignore`. -/
def is_ignored (f : ItemFn) : Bool :=
  f.attrs.any (fun attr => isIdent attr.path "utoipa_ignore")

/-- Predicate `should_parse_fn`: the function has at least one attribute and
is not ignored. -/
def should_parse_fn (f : ItemFn) : Bool :=
  !f.attrs.isEmpty && !is_ignored f

/-- Function classifier `parse_function`: for each attribute any of whose
path segments equals the configured function-marker name, push the
function's name once. -/
def parse_function (f : ItemFn) (fn_attributes_name : String) : List String :=
  if should_parse_fn f then
    f.attrs.foldl
      (fun acc attr =>
        if attr.path.any (fun seg => seg == fn_attributes_name) then acc ++ [f.name]
        else acc)
      []
  else []

/-- Classification of one nested meta inside a `derive` attribute: the body
of the inner `for nested_meta in nested` loop of `parse_from_attr`. -/
def classify_nested (params : Parameters) (name : List String) (nm : List String) : List DiscoverType :=
  match nm with
  | [a, b] =>
    if a == "utoipa" then
      if b == "ToSchema" then [DiscoverType.Model name]
      else if b == "ToResponse" then [DiscoverType.Response name]
      else []
    else
      (if isIdent nm params.schema_attribute_name then [DiscoverType.Model name] else []) ++
      (if isIdent nm params.response_attribute_name then [DiscoverType.Response name] else [])
  | _ =>
    (if isIdent nm params.schema_attribute_name then [DiscoverType.Model name] else []) ++
    (if isIdent nm params.response_attribute_name then [DiscoverType.Response name] else [])

/-- Attribute loop of `parse_from_attr`, with the accumulated `out` vector
made explicit so that the early `return vec![]` on `utoipa_ignore`
(discarding `out`) and the `expect` on a failing derive-argument parse
(the fatal abort) are modelled faithfully. -/
def parse_from_attr_loop (params : Parameters) (name : List String)
    (out : List DiscoverType) : List Attr → Except String (List DiscoverType)
  | [] => Except.ok out
  | attr :: rest =>
    if isIdent attr.path "utoipa_ignore" then Except.ok []
    else if isIdent attr.path "derive" then
      match attr.args with
      | none => Except.error "Failed to parse derive attribute"
      | some nested =>
        parse_from_attr_loop params name
          (out ++ nested.foldl (fun o nm => o ++ classify_nested params name nm) []) rest
    else parse_from_attr_loop params name out rest

/-- Data-type classifier `parse_from_attr`: search for schema and response
markers in the attributes of a struct or enum. -/
def parse_from_attr (a : List Attr) (name : List String)
    (generic_params : List String) (params : Parameters) : Except String (List DiscoverType) :=
  if !generic_params.isEmpty then Except.ok []
  else parse_from_attr_loop params name [] a

/-- Impl-block classifier `parse_from_impl`: resolve the trait path's last
segment and compare it against the configured marker names. -/
def parse_from_impl (im : ItemImpl) (module_base_path : List String)
    (params : Parameters) : List DiscoverType :=
  match im.trait_ with
  | none => []
  | some segs =>
    match segs.getLast? with
    | none => []
    | some impl_name =>
      if impl_name == params.schema_attribute_name then
        [DiscoverType.CustomModelImpl (build_path module_base_path im.self_ty)]
      else if impl_name == params.response_attribute_name then
        [DiscoverType.CustomResponseImpl (build_path module_base_path im.self_ty)]
      else []

mutual

/-- Per-item dispatch: the match arm of `parse_module_items`'s `map` closure. -/
def parse_item (params : Parameters) (module_path : List String) :
    Item → Except String (List DiscoverType)
  | Item.mod name content =>
    match content with
    | none => Except.ok []
    | some cs => parse_module_items params (build_path module_path name) cs
  | Item.fn f =>
    Except.ok ((parse_function f params.fn_attribute_name).map
      (fun item => DiscoverType.Fn (build_path module_path item)))
  | Item.struct n generics attrs => parse_from_attr attrs (build_path module_path n) generics params
  | Item.enum n generics attrs => parse_from_attr attrs (build_path module_path n) generics params
  | Item.impl im => Except.ok (parse_from_impl im module_path params)
  | Item.other => Except.ok []

/-- Namespace tree walker `parse_module_items`: classify every item of a
module, concatenating the per-item results in declaration order. -/
def parse_module_items (params : Parameters) (module_path : List String) :
    List Item → Except String (List DiscoverType)
  | [] => Except.ok []
  | i :: rest => do
    let v ← parse_item params module_path i
    let acc ← parse_module_items params module_path rest
    Except.ok (v ++ acc)

end

/-- Final fold of `discover_from_file`: partition the discovered entries
into (operations, models, responses). -/
def aggregate (l : List DiscoverType) : List (List String) × List (List String) × List (List String) :=
  l.foldl
    (fun acc v =>
      match v with
      | DiscoverType.Fn n => (acc.1 ++ [n], acc.2.1, acc.2.2)
      | DiscoverType.Model n => (acc.1, acc.2.1 ++ [n], acc.2.2)
      | DiscoverType.Response n => (acc.1, acc.2.1, acc.2.2 ++ [n])
      | DiscoverType.CustomModelImpl n => (acc.1, acc.2.1 ++ [n], acc.2.2)
      | DiscoverType.CustomResponseImpl n => (acc.1, acc.2.1, acc.2.2 ++ [n]))
    ([], [], [])

/-- Entry point `discover_from_file`. Modelled from the spec: the file
collector (`parse_files` with `extract_module_name_from_path`, code outside
this core) is an external collaborator supplying (namespace-root path,
parsed top-level items) pairs, here given as an `Option` input whose `none`
case is the collector failure on which the code aborts fatally. -/
def discover_from_file (files : Option (List (List String × List Item)))
    (params : Parameters) :
    Except String (List (List String) × List (List String) × List (List String)) :=
  match files with
  | none => Except.error "Failed to parse file"
  | some fs => do
    let perFile ← fs.mapM (fun e => parse_module_items params e.1 e.2)
    Except.ok (aggregate perFile.flatten)

/-- Refinement selector, following the spec's words (§3, §4.6): the path an
entry contributes to the Operations collection, if any. -/
def operationPathOf : DiscoverType → Option (List String)
  | DiscoverType.Fn n => some n
  | _ => none

/-- Refinement selector, following the spec's words (§3, §4.6): the path an
entry contributes to the Models collection (Model and CustomModelImpl), if any. -/
def modelPathOf : DiscoverType → Option (List String)
  | DiscoverType.Model n => some n
  | DiscoverType.CustomModelImpl n => some n
  | _ => none

/-- Refinement selector, following the spec's words (§3, §4.6): the path an
entry contributes to the Responses collection (ResponseModel and
CustomResponseImpl), if any. -/
def responsePathOf : DiscoverType → Option (List String)
  | DiscoverType.Response n => some n
  | DiscoverType.CustomResponseImpl n => some n
  | _ => none

/-- Path carried by a discovered entry, whatever its kind; used to state
the fully-qualified-path property uniformly over all five entry kinds. -/
def pathOf : DiscoverType → List String
  | DiscoverType.Fn n => n
  | DiscoverType.Model n => n
  | DiscoverType.Response n => n
  | DiscoverType.CustomModelImpl n => n
  | DiscoverType.CustomResponseImpl n => n

/-- Nesting of a declaration under a chain of namespace declarations, used
to state the fully-qualified-path property for a declaration `k` levels deep. -/
def nestMods : List String → Item → Item
  | [], it => it
  | s :: rest, it => Item.mod s (some [nestMods rest it])

mutual

/-- Well-formedness of one item, following the spec's error model (§7):
every composite (derive) annotation on a data type can be parsed into its
nested marker names, recursively through nested namespaces. -/
def item_wf : Item → Bool
  | Item.mod _ none => true
  | Item.mod _ (some cs) => items_wf cs
  | Item.fn _ => true
  | Item.struct _ _ attrs => attrs.all (fun a => !(isIdent a.path "derive") || a.args.isSome)
  | Item.enum _ _ attrs => attrs.all (fun a => !(isIdent a.path "derive") || a.args.isSome)
  | Item.impl _ => true
  | Item.other => true

/-- Well-formedness of an item list: every item is well-formed. -/
def items_wf : List Item → Bool
  | [] => true
  | i :: rest => item_wf i && items_wf rest

end

/-! ## Helper lemmas -/

theorem foldl_append_eq_flatMap {α β : Type} (g : α → List β) :
    ∀ (l : List α) (init : List β),
      l.foldl (fun acc x => acc ++ g x) init = init ++ l.flatMap g := by
  intro l
  induction l with
  | nil => intro init; simp
  | cons x xs ih => intro init; simp [List.foldl_cons, ih]

theorem foldl_filter_push {α β : Type} (p : α → Bool) (c : β) :
    ∀ (l : List α) (init : List β),
      l.foldl (fun acc x => if p x then acc ++ [c] else acc) init
        = init ++ (l.filter p).map (fun _ => c) := by
  intro l
  induction l with
  | nil => intro init; simp
  | cons x xs ih =>
    intro init
    by_cases h : p x = true <;> simp [List.foldl_cons, List.filter_cons, h, ih]

theorem aggregate_go (l : List DiscoverType) :
    ∀ (a b c : List (List String)),
      l.foldl
        (fun acc v =>
          match v with
          | DiscoverType.Fn n => (acc.1 ++ [n], acc.2.1, acc.2.2)
          | DiscoverType.Model n => (acc.1, acc.2.1 ++ [n], acc.2.2)
          | DiscoverType.Response n => (acc.1, acc.2.1, acc.2.2 ++ [n])
          | DiscoverType.CustomModelImpl n => (acc.1, acc.2.1 ++ [n], acc.2.2)
          | DiscoverType.CustomResponseImpl n => (acc.1, acc.2.1, acc.2.2 ++ [n]))
        (a, b, c)
        = (a ++ l.filterMap operationPathOf, b ++ l.filterMap modelPathOf,
           c ++ l.filterMap responsePathOf) := by
  induction l with
  | nil => intro a b c; simp
  | cons x xs ih =>
    intro a b c
    cases x <;>
      simp [List.foldl_cons, ih, operationPathOf, modelPathOf, responsePathOf,
        List.filterMap_cons]

/-! ## Claims -/

/-- C7: the result aggregation is a single linear fold partitioning the
ordered entry list by kind — Fn to Operations, Model and CustomModelImpl to
Models, Response and CustomResponseImpl to Responses — preserving relative
order, with no re-sorting and no deduplication (each collection is exactly
the order-preserving `filterMap` of the corresponding selector). -/
theorem claim_C7 (l : List DiscoverType) :
    aggregate l
      = (l.filterMap operationPathOf, l.filterMap modelPathOf, l.filterMap responsePathOf) := by
  have h := aggregate_go l [] [] []
  simpa [aggregate] using h

/-- C3 counterexample: the generic type `User<T>` (non-empty generic
parameter list) still gets its fully-qualified path `api::User` into the
Models collection when an impl block implements the configured model-marker
trait for it — `parse_from_impl` performs no generics check, so the claim's
"never appears in Models or Responses" fails on the impl route. -/
theorem claim_C3_counterexample :
    (["T"] : List String) ≠ [] ∧
    discover_from_file
        (some [(["api"],
          [Item.struct "User" ["T"] [⟨["derive"], some [["utoipa", "ToSchema"]]⟩],
           Item.impl ⟨[], some ["M"], "User"⟩])])
        ⟨"op", "M", "R"⟩
      = Except.ok ([], [["api", "User"]], []) := by
  exact ⟨by decide, rfl⟩

/-- C3 amended: a data type (struct-like or enum-like) whose generic
parameter list is non-empty contributes no entries through its own
declaration — `parse_from_attr` returns the empty list regardless of its
attached annotations, for struct and enum alike; only a separate
capability-implementation block, which is not subject to the generics
check, can still introduce the type's path. -/
theorem claim_C3_amended (attrs : List Attr) (name p : List String) (n : String)
    (generics : List String) (params : Parameters) (h : generics ≠ []) :
    parse_from_attr attrs name generics params = Except.ok [] ∧
    parse_item params p (Item.struct n generics attrs) = Except.ok [] ∧
    parse_item params p (Item.enum n generics attrs) = Except.ok [] := by
  have hne : generics.isEmpty = false := by
    cases generics with
    | nil => exact absurd rfl h
    | cons x xs => rfl
  refine ⟨?_, ?_, ?_⟩ <;> simp [parse_item, parse_from_attr, hne]

/-- C3 amended witness: a generic struct carrying a built-in schema derive
marker contributes nothing through its own declaration. -/
theorem claim_C3_amended_witness :
    parse_from_attr [⟨["derive"], some [["utoipa", "ToSchema"]]⟩] ["api", "User"] ["T"]
        ⟨"op", "M", "R"⟩ = Except.ok [] ∧
    parse_item ⟨"op", "M", "R"⟩ ["api"]
        (Item.struct "User" ["T"] [⟨["derive"], some [["utoipa", "ToSchema"]]⟩])
      = Except.ok [] := by
  have h := claim_C3_amended [⟨["derive"], some [["utoipa", "ToSchema"]]⟩] ["api", "User"]
    ["api"] "User" ["T"] ⟨"op", "M", "R"⟩ (by decide)
  exact ⟨h.1, h.2.1⟩

/-- C1: a function with at least one annotation and no ignore marker yields
exactly one Operation entry per attached annotation any of whose path
segments equals the configured function-marker name, each with path =
namespace path + function name; duplicates are not collapsed. -/
theorem claim_C1 (f : ItemFn) (params : Parameters) (p : List String)
    (h1 : f.attrs ≠ []) (h2 : is_ignored f = false) :
    parse_item params p (Item.fn f)
      = Except.ok
          ((f.attrs.filter (fun a => a.path.any (fun seg => seg == params.fn_attribute_name))).map
            (fun _ => DiscoverType.Fn (p ++ [f.name]))) := by
  have hne : f.attrs.isEmpty = false := by
    cases hf : f.attrs with
    | nil => exact absurd hf h1
    | cons x xs => rfl
  have hsp : should_parse_fn f = true := by
    simp [should_parse_fn, hne, h2]
  have hfold := foldl_filter_push
    (fun (a : Attr) => a.path.any (fun seg => seg == params.fn_attribute_name)) f.name f.attrs []
  simp only [List.nil_append] at hfold
  simp only [parse_item]
  unfold parse_function
  rw [if_pos hsp, hfold, List.map_map]
  rfl

/-- C1 witness: a function with two annotations matching the marker (one of
them via a dotted path segment) and one non-matching annotation yields two
identical Operation entries. -/
theorem claim_C1_witness :
    parse_item ⟨"op", "M", "R"⟩ ["api", "handlers"]
        (Item.fn ⟨[⟨["op"], none⟩, ⟨["x"], none⟩, ⟨["routes", "op"], none⟩], "get_user"⟩)
      = Except.ok [DiscoverType.Fn ["api", "handlers", "get_user"],
          DiscoverType.Fn ["api", "handlers", "get_user"]] := by
  have h := claim_C1 ⟨[⟨["op"], none⟩, ⟨["x"], none⟩, ⟨["routes", "op"], none⟩], "get_user"⟩
    ⟨"op", "M", "R"⟩ ["api", "handlers"] (by decide) (by decide)
  exact h.trans (by rfl)

theorem classify_nested_eq (params : Parameters) (name : List String) (nm : List String) :
    classify_nested params name nm
      = (if nm = ["utoipa", "ToSchema"] then [DiscoverType.Model name]
         else if nm = ["utoipa", "ToResponse"] then [DiscoverType.Response name]
         else
           (if nm = [params.schema_attribute_name] then [DiscoverType.Model name] else []) ++
           (if nm = [params.response_attribute_name] then [DiscoverType.Response name] else [])) := by
  rcases nm with _ | ⟨a, _ | ⟨b, _ | ⟨c, t⟩⟩⟩
  · simp [classify_nested, isIdent]
  · by_cases h1 : a = params.schema_attribute_name <;>
      by_cases h2 : a = params.response_attribute_name <;>
      simp [classify_nested, isIdent, h1, h2]
  · by_cases ha : a = "utoipa"
    · subst ha
      by_cases hb1 : b = "ToSchema"
      · subst hb1; simp [classify_nested]
      · by_cases hb2 : b = "ToResponse"
        · subst hb2; simp [classify_nested]
        · simp [classify_nested, isIdent, hb1, hb2]
    · simp [classify_nested, isIdent, ha]
  · simp [classify_nested, isIdent]

/-- C4: for each nested marker name inside a composite (derive) annotation on
a non-generic, non-ignored data type: a two-segment name `utoipa::ToSchema`
or `utoipa::ToResponse` classifies as Model or ResponseModel respectively;
any other name is compared (as a single plain ident) against the configured
model-marker and response-marker strings, one entry per match, with both
checks evaluated independently and no deduplication. -/
theorem claim_C4 (nested : List (List String)) (name : List String) (params : Parameters) :
    parse_from_attr [⟨["derive"], some nested⟩] name [] params
      = Except.ok (nested.flatMap (fun nm =>
          if nm = ["utoipa", "ToSchema"] then [DiscoverType.Model name]
          else if nm = ["utoipa", "ToResponse"] then [DiscoverType.Response name]
          else
            (if nm = [params.schema_attribute_name] then [DiscoverType.Model name] else []) ++
            (if nm = [params.response_attribute_name] then [DiscoverType.Response name] else []))) := by
  have hfn : classify_nested params name
      = (fun nm =>
          if nm = ["utoipa", "ToSchema"] then [DiscoverType.Model name]
          else if nm = ["utoipa", "ToResponse"] then [DiscoverType.Response name]
          else
            (if nm = [params.schema_attribute_name] then [DiscoverType.Model name] else []) ++
            (if nm = [params.response_attribute_name] then [DiscoverType.Response name] else [])) :=
    funext (classify_nested_eq params name)
  have hfold := foldl_append_eq_flatMap (classify_nested params name) nested []
  simp only [List.nil_append] at hfold
  have hstart : parse_from_attr [⟨["derive"], some nested⟩] name [] params
      = Except.ok (nested.foldl (fun o nm => o ++ classify_nested params name nm) []) := rfl
  rw [hstart, hfold, hfn]

/-- C10: a plain single-name annotation attached directly to a data type,
even one whose name equals the configured model-marker or response-marker
string, contributes no entry: only nested names inside a composite (derive)
annotation are classified. Prepending such an annotation leaves the
classification unchanged, and a type carrying only such annotations yields
no entries. -/
theorem claim_C10 (params : Parameters) (name : List String)
    (args : Option (List (List String))) (rest : List Attr) (marker : String)
    (_hm : marker = params.schema_attribute_name ∨ marker = params.response_attribute_name)
    (h1 : marker ≠ "derive") (h2 : marker ≠ "utoipa_ignore") :
    parse_from_attr (⟨[marker], args⟩ :: rest) name [] params
      = parse_from_attr rest name [] params ∧
    parse_from_attr [⟨[marker], args⟩] name [] params = Except.ok [] := by
  have e1 : isIdent [marker] "utoipa_ignore" = false := by simp [isIdent, h2]
  have e2 : isIdent [marker] "derive" = false := by simp [isIdent, h1]
  constructor
  · show parse_from_attr_loop params name [] (⟨[marker], args⟩ :: rest)
        = parse_from_attr_loop params name [] rest
    simp [parse_from_attr_loop, e1, e2]
  · show parse_from_attr_loop params name [] [⟨[marker], args⟩] = Except.ok []
    simp [parse_from_attr_loop, e1, e2]

/-- C10 witness: a struct annotated only with the plain annotation `#[M]`
under configuration with model-marker `M` yields no Model entry. -/
theorem claim_C10_witness :
    parse_from_attr [⟨["M"], none⟩, ⟨["derive"], some [["M"]]⟩] ["api", "User"] [] ⟨"op", "M", "R"⟩
      = parse_from_attr [⟨["derive"], some [["M"]]⟩] ["api", "User"] [] ⟨"op", "M", "R"⟩ ∧
    parse_from_attr [⟨["M"], none⟩] ["api", "User"] [] ⟨"op", "M", "R"⟩ = Except.ok [] := by
  exact claim_C10 ⟨"op", "M", "R"⟩ ["api", "User"] none [⟨["derive"], some [["M"]]⟩] "M"
    (Or.inl rfl) (by decide) (by decide)

/-- C2 counterexample: a capability-implementation block carrying the
`utoipa_ignore` annotation and implementing the configured model-marker
trait still produces a Models entry — the ignore marker is never checked on
impl blocks, so the claim's quantification over impl blocks fails. -/
theorem claim_C2_counterexample :
    ((⟨[⟨["utoipa_ignore"], none⟩], some ["M"], "W"⟩ : ItemImpl).attrs.any
        (fun a => isIdent a.path "utoipa_ignore")) = true ∧
    discover_from_file
        (some [(["api"], [Item.impl ⟨[⟨["utoipa_ignore"], none⟩], some ["M"], "W"⟩])])
        ⟨"handler", "M", "R"⟩
      = Except.ok ([], [["api", "W"]], []) ∧
    ([["api", "W"]] : List (List String)) ≠ [] := by
  exact ⟨rfl, rfl, by decide⟩

theorem parse_from_attr_loop_ignored (params : Parameters) (name : List String) :
    ∀ (attrs : List Attr) (out : List DiscoverType),
      attrs.any (fun a => isIdent a.path "utoipa_ignore") = true →
      (∀ a ∈ attrs, isIdent a.path "derive" = true → a.args ≠ none) →
      parse_from_attr_loop params name out attrs = Except.ok [] := by
  intro attrs
  induction attrs with
  | nil => intro out h _; simp at h
  | cons a rest ih =>
    intro out hany hwf
    by_cases hig : isIdent a.path "utoipa_ignore" = true
    · simp [parse_from_attr_loop, hig]
    · have hrest : rest.any (fun x => isIdent x.path "utoipa_ignore") = true := by
        simp only [List.any_cons, Bool.or_eq_true] at hany
        rcases hany with h | h
        · exact absurd h hig
        · exact h
      have hig' : isIdent a.path "utoipa_ignore" = false := by
        cases hx : isIdent a.path "utoipa_ignore" with
        | false => rfl
        | true => exact absurd hx hig
      by_cases hd : isIdent a.path "derive" = true
      · obtain ⟨l, hl⟩ : ∃ l, a.args = some l := by
          cases hx : a.args with
          | none => exact absurd hx (hwf a (by simp) hd)
          | some l => exact ⟨l, rfl⟩
        rw [show parse_from_attr_loop params name out (a :: rest)
            = (if isIdent a.path "utoipa_ignore" then Except.ok []
               else if isIdent a.path "derive" then
                 match a.args with
                 | none => Except.error "Failed to parse derive attribute"
                 | some nested =>
                   parse_from_attr_loop params name
                     (out ++ nested.foldl (fun o nm => o ++ classify_nested params name nm) []) rest
               else parse_from_attr_loop params name out rest) from rfl]
        rw [if_neg (by simp [hig']), if_pos hd, hl]
        exact ih _ hrest (fun x hx hdx => hwf x (by simp [hx]) hdx)
      · have hd' : isIdent a.path "derive" = false := by
          cases hx : isIdent a.path "derive" with
          | false => rfl
          | true => exact absurd hx hd
        rw [show parse_from_attr_loop params name out (a :: rest)
            = (if isIdent a.path "utoipa_ignore" then Except.ok []
               else if isIdent a.path "derive" then
                 match a.args with
                 | none => Except.error "Failed to parse derive attribute"
                 | some nested =>
                   parse_from_attr_loop params name
                     (out ++ nested.foldl (fun o nm => o ++ classify_nested params name nm) []) rest
               else parse_from_attr_loop params name out rest) from rfl]
        rw [if_neg (by simp [hig']), if_neg (by simp [hd'])]
        exact ih out hrest (fun x hx hdx => hwf x (by simp [hx]) hdx)

/-- C2 amended: a function carrying the ignore marker yields no entries, and
a data type (struct-like or enum-like) carrying the ignore marker yields no
entries provided discovery does not abort first on a malformed composite
annotation; capability-implementation blocks, by contrast, are not subject
to the ignore marker at all. -/
theorem claim_C2_amended (params : Parameters) (p name : List String) (f : ItemFn)
    (attrs : List Attr) (generics : List String) (n : String)
    (hf : is_ignored f = true)
    (hattr : attrs.any (fun a => isIdent a.path "utoipa_ignore") = true)
    (hwf : ∀ a ∈ attrs, isIdent a.path "derive" = true → a.args ≠ none) :
    parse_item params p (Item.fn f) = Except.ok [] ∧
    parse_from_attr attrs name generics params = Except.ok [] ∧
    parse_item params p (Item.struct n generics attrs) = Except.ok [] ∧
    parse_item params p (Item.enum n generics attrs) = Except.ok [] := by
  have hattr' : parse_from_attr attrs name generics params = Except.ok [] := by
    unfold parse_from_attr
    by_cases hg : generics.isEmpty
    · rw [if_neg (by simp [hg])]
      exact parse_from_attr_loop_ignored params name attrs [] hattr hwf
    · rw [if_pos (by simp [Bool.not_eq_true] at hg ⊢; simp [hg])]
  refine ⟨?_, hattr', ?_, ?_⟩
  · have : parse_function f params.fn_attribute_name = [] := by
      unfold parse_function
      rw [if_neg]
      simp [should_parse_fn, hf]
    simp [parse_item, this]
  · show parse_from_attr attrs (build_path p n) generics params = Except.ok []
    unfold parse_from_attr
    by_cases hg : generics.isEmpty
    · rw [if_neg (by simp [hg])]
      exact parse_from_attr_loop_ignored params _ attrs [] hattr hwf
    · rw [if_pos (by simp [Bool.not_eq_true] at hg ⊢; simp [hg])]
  · show parse_from_attr attrs (build_path p n) generics params = Except.ok []
    unfold parse_from_attr
    by_cases hg : generics.isEmpty
    · rw [if_neg (by simp [hg])]
      exact parse_from_attr_loop_ignored params _ attrs [] hattr hwf
    · rw [if_pos (by simp [Bool.not_eq_true] at hg ⊢; simp [hg])]

/-- C2 amended witness: a function and a struct each carrying both the
ignore marker and a matching marker yield no entries. -/
theorem claim_C2_amended_witness :
    parse_item ⟨"op", "M", "R"⟩ ["api"]
        (Item.fn ⟨[⟨["op"], none⟩, ⟨["utoipa_ignore"], none⟩], "get_user"⟩) = Except.ok [] ∧
    parse_item ⟨"op", "M", "R"⟩ ["api"]
        (Item.struct "User" [] [⟨["derive"], some [["utoipa", "ToSchema"]]⟩,
          ⟨["utoipa_ignore"], none⟩]) = Except.ok [] := by
  have h := claim_C2_amended ⟨"op", "M", "R"⟩ ["api"] ["api", "User"]
    ⟨[⟨["op"], none⟩, ⟨["utoipa_ignore"], none⟩], "get_user"⟩
    [⟨["derive"], some [["utoipa", "ToSchema"]]⟩, ⟨["utoipa_ignore"], none⟩] [] "User"
    (by decide) (by decide) (by decide)
  exact ⟨h.1, h.2.2.1⟩

/-- C5 counterexample: with model-marker and response-marker both configured
as `M`, an impl block whose trait's last segment is `M` emits a
CustomModelImpl entry and not the CustomResponseImpl entry the claim's
response-marker conditional demands — the two checks are an ordered
else-if, not independent. -/
theorem claim_C5_counterexample :
    (["M"].getLast? = some (⟨"h", "M", "M"⟩ : Parameters).response_attribute_name) ∧
    parse_from_impl ⟨[], some ["M"], "W"⟩ ["api"] ⟨"h", "M", "M"⟩
      ≠ [DiscoverType.CustomResponseImpl (build_path ["api"] "W")] ∧
    parse_from_impl ⟨[], some ["M"], "W"⟩ ["api"] ⟨"h", "M", "M"⟩
      = [DiscoverType.CustomModelImpl ["api", "W"]] := by
  exact ⟨rfl, by decide, rfl⟩

/-- C5 amended: the marker checks on an impl block's trait are ordered — if
the trait's last segment equals the configured model-marker name, exactly
one CustomModelImpl entry with path = namespace path + target type name is
emitted; otherwise, if it equals the configured response-marker name,
exactly one CustomResponseImpl entry; an inherent impl (no trait) or an
unrecognized trait contributes no entries. -/
theorem claim_C5_amended (im : ItemImpl) (p : List String) (params : Parameters) :
    (im.trait_ = none → parse_from_impl im p params = []) ∧
    (∀ segs last_seg, im.trait_ = some segs → segs.getLast? = some last_seg →
      (last_seg = params.schema_attribute_name →
        parse_from_impl im p params
          = [DiscoverType.CustomModelImpl (p ++ [im.self_ty])]) ∧
      (last_seg ≠ params.schema_attribute_name →
        last_seg = params.response_attribute_name →
        parse_from_impl im p params
          = [DiscoverType.CustomResponseImpl (p ++ [im.self_ty])]) ∧
      (last_seg ≠ params.schema_attribute_name →
        last_seg ≠ params.response_attribute_name →
        parse_from_impl im p params = [])) := by
  constructor
  · intro h
    simp [parse_from_impl, h]
  · intro segs last_seg hsegs hlast
    refine ⟨?_, ?_, ?_⟩
    · intro h
      simp [parse_from_impl, hsegs, hlast, h, build_path]
    · intro h1 h2
      subst h2
      simp [parse_from_impl, hsegs, hlast, h1, build_path]
    · intro h1 h2
      simp [parse_from_impl, hsegs, hlast, h1, h2]

/-- C5 amended witness: a recognized model-marker trait, an inherent impl,
and an unrecognized trait, each at a concrete input. -/
theorem claim_C5_amended_witness :
    parse_from_impl ⟨[], some ["traits", "MySchema"], "Widget"⟩ ["api"] ⟨"op", "MySchema", "MyR"⟩
      = [DiscoverType.CustomModelImpl ["api", "Widget"]] ∧
    parse_from_impl ⟨[], none, "W"⟩ ["api"] ⟨"op", "M", "R"⟩ = [] ∧
    parse_from_impl ⟨[], some ["Other"], "W"⟩ ["api"] ⟨"op", "M", "R"⟩ = [] := by
  refine ⟨?_, ?_, ?_⟩
  · exact ((claim_C5_amended ⟨[], some ["traits", "MySchema"], "Widget"⟩ ["api"]
      ⟨"op", "MySchema", "MyR"⟩).2 ["traits", "MySchema"] "MySchema" rfl rfl).1 rfl
  · exact (claim_C5_amended ⟨[], none, "W"⟩ ["api"] ⟨"op", "M", "R"⟩).1 rfl
  · exact ((claim_C5_amended ⟨[], some ["Other"], "W"⟩ ["api"] ⟨"op", "M", "R"⟩).2
      ["Other"] "Other" rfl rfl).2.2 (by decide) (by decide)

theorem parse_module_items_singleton (params : Parameters) (q : List String) (x : Item) :
    parse_module_items params q [x] = parse_item params q x := by
  unfold parse_module_items
  cases hx : parse_item params q x with
  | error e => rfl
  | ok a =>
    show Except.ok (a ++ []) = Except.ok a
    simp

theorem parse_nestMods (params : Parameters) :
    ∀ (segs : List String) (p : List String) (it : Item),
      parse_item params p (nestMods segs it) = parse_item params (p ++ segs) it := by
  intro segs
  induction segs with
  | nil => intro p it; simp [nestMods]
  | cons s rest ih =>
    intro p it
    show parse_module_items params (build_path p s) [nestMods rest it]
        = parse_item params (p ++ s :: rest) it
    rw [parse_module_items_singleton, ih]
    simp [build_path]

theorem parse_function_mem (f : ItemFn) (m : String) (x : String) :
    x ∈ parse_function f m → x = f.name := by
  unfold parse_function
  by_cases h : should_parse_fn f = true
  · rw [if_pos h, foldl_filter_push]
    intro hx
    simp only [List.nil_append, List.mem_map] at hx
    obtain ⟨a, _, ha⟩ := hx
    exact ha.symm
  · rw [if_neg h]
    intro hx
    simp at hx

theorem parse_from_attr_loop_cons (params : Parameters) (name : List String)
    (out : List DiscoverType) (a : Attr) (rest : List Attr) :
    parse_from_attr_loop params name out (a :: rest)
      = (if isIdent a.path "utoipa_ignore" then Except.ok []
         else if isIdent a.path "derive" then
           match a.args with
           | none => Except.error "Failed to parse derive attribute"
           | some nested =>
             parse_from_attr_loop params name
               (out ++ nested.foldl (fun o nm => o ++ classify_nested params name nm) []) rest
         else parse_from_attr_loop params name out rest) := rfl

theorem mem_classify_nested (params : Parameters) (name nm : List String) :
    ∀ e ∈ classify_nested params name nm, pathOf e = name := by
  have hM : ∀ e ∈ [DiscoverType.Model name], pathOf e = name := by
    intro e he
    simp at he
    subst he
    rfl
  have hR : ∀ e ∈ [DiscoverType.Response name], pathOf e = name := by
    intro e he
    simp at he
    subst he
    rfl
  have hS : ∀ e ∈ ((if isIdent nm params.schema_attribute_name
        then [DiscoverType.Model name] else []) ++
      (if isIdent nm params.response_attribute_name
        then [DiscoverType.Response name] else [])),
      pathOf e = name := by
    intro e he
    rw [List.mem_append] at he
    rcases he with he | he
    · split_ifs at he
      · exact hM e he
      · simp at he
    · split_ifs at he
      · exact hR e he
      · simp at he
  rcases nm with _ | ⟨a, _ | ⟨b, _ | ⟨c, t⟩⟩⟩
  · exact hS
  · exact hS
  · show ∀ e ∈ (if a == "utoipa" then
        (if b == "ToSchema" then [DiscoverType.Model name]
         else if b == "ToResponse" then [DiscoverType.Response name]
         else [])
      else
        (if isIdent [a, b] params.schema_attribute_name
          then [DiscoverType.Model name] else []) ++
        (if isIdent [a, b] params.response_attribute_name
          then [DiscoverType.Response name] else [])), pathOf e = name
    by_cases h1 : (a == "utoipa") = true
    · rw [if_pos h1]
      by_cases h2 : (b == "ToSchema") = true
      · rw [if_pos h2]
        exact hM
      · rw [if_neg h2]
        by_cases h3 : (b == "ToResponse") = true
        · rw [if_pos h3]
          exact hR
        · rw [if_neg h3]
          intro e he
          simp at he
    · rw [if_neg h1]
      exact hS
  · exact hS

theorem parse_from_attr_loop_path (params : Parameters) (name : List String) :
    ∀ (attrs : List Attr) (out l : List DiscoverType),
      (∀ e ∈ out, pathOf e = name) →
      parse_from_attr_loop params name out attrs = Except.ok l →
      ∀ e ∈ l, pathOf e = name := by
  intro attrs
  induction attrs with
  | nil =>
    intro out l hout h
    have hol : out = l := Except.ok.inj h
    subst hol
    exact hout
  | cons a rest ih =>
    intro out l hout h
    rw [parse_from_attr_loop_cons] at h
    by_cases h1 : isIdent a.path "utoipa_ignore" = true
    · rw [if_pos h1] at h
      have hel : ([] : List DiscoverType) = l := Except.ok.inj h
      subst hel
      intro e he
      simp at he
    · rw [if_neg h1] at h
      by_cases h2 : isIdent a.path "derive" = true
      · rw [if_pos h2] at h
        cases hargs : a.args with
        | none =>
          rw [hargs] at h
          exact absurd h (by simp)
        | some nested =>
          rw [hargs] at h
          refine ih _ l ?_ h
          intro e he
          rw [List.mem_append] at he
          rcases he with he | he
          · exact hout e he
          · rw [foldl_append_eq_flatMap] at he
            simp only [List.nil_append] at he
            rw [List.mem_flatMap] at he
            obtain ⟨nm, _, hnm⟩ := he
            exact mem_classify_nested params name nm e hnm
      · rw [if_neg h2] at h
        exact ih out l hout h

theorem parse_from_attr_path (params : Parameters) (attrs : List Attr)
    (name g : List String) (l : List DiscoverType) :
    parse_from_attr attrs name g params = Except.ok l →
    ∀ e ∈ l, pathOf e = name := by
  unfold parse_from_attr
  by_cases hg : (!g.isEmpty) = true
  · rw [if_pos hg]
    intro h
    have hel : ([] : List DiscoverType) = l := Except.ok.inj h
    subst hel
    intro e he
    simp at he
  · rw [if_neg hg]
    intro h
    exact parse_from_attr_loop_path params name attrs [] l (by intro e he; simp at he) h

theorem parse_from_impl_path (im : ItemImpl) (p : List String) (params : Parameters) :
    ∀ e ∈ parse_from_impl im p params, pathOf e = p ++ [im.self_ty] := by
  rcases htr : im.trait_ with _ | segs
  · have h0 : parse_from_impl im p params = [] := by
      unfold parse_from_impl
      rw [htr]
    rw [h0]
    intro e he
    simp at he
  · have hstep : parse_from_impl im p params
        = (match segs.getLast? with
          | none => ([] : List DiscoverType)
          | some impl_name =>
            if impl_name == params.schema_attribute_name then
              [DiscoverType.CustomModelImpl (build_path p im.self_ty)]
            else if impl_name == params.response_attribute_name then
              [DiscoverType.CustomResponseImpl (build_path p im.self_ty)]
            else []) := by
      unfold parse_from_impl
      rw [htr]
    rw [hstep]
    rcases segs.getLast? with _ | last_seg
    · intro e he
      simp at he
    · show ∀ e ∈ (if last_seg == params.schema_attribute_name then
            [DiscoverType.CustomModelImpl (build_path p im.self_ty)]
          else if last_seg == params.response_attribute_name then
            [DiscoverType.CustomResponseImpl (build_path p im.self_ty)]
          else []), pathOf e = p ++ [im.self_ty]
      by_cases h1 : (last_seg == params.schema_attribute_name) = true
      · rw [if_pos h1]
        intro e he
        simp at he
        subst he
        rfl
      · rw [if_neg h1]
        by_cases h2 : (last_seg == params.response_attribute_name) = true
        · rw [if_pos h2]
          intro e he
          simp at he
          subst he
          rfl
        · rw [if_neg h2]
          intro e he
          simp at he

/-- C6: the path builder appends the declaration's name as the final segment
of the namespace path, and every entry emitted for a declaration nested `k`
namespace levels deep under the root — a function, a struct-like or
enum-like data type, or a capability-implementation block — carries the
path root :: seg_1 :: ... :: seg_k :: declarationName, segments in
outer-to-inner order. -/
theorem claim_C6 :
    (∀ (p : List String) (n : String), build_path p n = p ++ [n]) ∧
    (∀ (params : Parameters) (root : String) (segs : List String) (f : ItemFn)
        (l : List DiscoverType) (e : DiscoverType),
      parse_module_items params [root] [nestMods segs (Item.fn f)] = Except.ok l →
      e ∈ l → e = DiscoverType.Fn (root :: (segs ++ [f.name]))) ∧
    (∀ (params : Parameters) (root : String) (segs : List String) (n : String)
        (g : List String) (attrs : List Attr) (l : List DiscoverType) (e : DiscoverType),
      parse_module_items params [root] [nestMods segs (Item.struct n g attrs)] = Except.ok l →
      e ∈ l → pathOf e = root :: (segs ++ [n])) ∧
    (∀ (params : Parameters) (root : String) (segs : List String) (n : String)
        (g : List String) (attrs : List Attr) (l : List DiscoverType) (e : DiscoverType),
      parse_module_items params [root] [nestMods segs (Item.enum n g attrs)] = Except.ok l →
      e ∈ l → pathOf e = root :: (segs ++ [n])) ∧
    (∀ (params : Parameters) (root : String) (segs : List String) (im : ItemImpl)
        (l : List DiscoverType) (e : DiscoverType),
      parse_module_items params [root] [nestMods segs (Item.impl im)] = Except.ok l →
      e ∈ l → pathOf e = root :: (segs ++ [im.self_ty])) := by
  refine ⟨fun p n => rfl, ?_, ?_, ?_, ?_⟩
  · intro params root segs f l e hok he
    rw [parse_module_items_singleton, parse_nestMods] at hok
    have hok' : Except.ok ((parse_function f params.fn_attribute_name).map
        (fun item => DiscoverType.Fn (build_path ([root] ++ segs) item))) = Except.ok l := hok
    have hl : l = (parse_function f params.fn_attribute_name).map
        (fun item => DiscoverType.Fn (build_path ([root] ++ segs) item)) :=
      (Except.ok.inj hok').symm
    subst hl
    simp only [List.mem_map] at he
    obtain ⟨x, hx, hxe⟩ := he
    have hxn := parse_function_mem f params.fn_attribute_name x hx
    subst hxn
    rw [← hxe]
    simp [build_path]
  · intro params root segs n g attrs l e hok he
    rw [parse_module_items_singleton, parse_nestMods] at hok
    have hok' : parse_from_attr attrs (build_path ([root] ++ segs) n) g params
        = Except.ok l := hok
    have hp := parse_from_attr_path params attrs (build_path ([root] ++ segs) n) g l hok' e he
    rw [hp]
    simp [build_path]
  · intro params root segs n g attrs l e hok he
    rw [parse_module_items_singleton, parse_nestMods] at hok
    have hok' : parse_from_attr attrs (build_path ([root] ++ segs) n) g params
        = Except.ok l := hok
    have hp := parse_from_attr_path params attrs (build_path ([root] ++ segs) n) g l hok' e he
    rw [hp]
    simp [build_path]
  · intro params root segs im l e hok he
    rw [parse_module_items_singleton, parse_nestMods] at hok
    have hok' : Except.ok (parse_from_impl im ([root] ++ segs) params) = Except.ok l := hok
    have hl : l = parse_from_impl im ([root] ++ segs) params := (Except.ok.inj hok').symm
    subst hl
    have hp := parse_from_impl_path im ([root] ++ segs) params e he
    rw [hp]
    simp

/-- C6 witness: the path builder on a concrete pair, and entries for a
function, a struct, and an impl block nested one or two namespace levels
deep, each carrying the expected fully-qualified path. -/
theorem claim_C6_witness :
    build_path ["api"] "x" = ["api", "x"] ∧
    DiscoverType.Fn ["api", "a", "b", "g"]
      = DiscoverType.Fn ("api" :: (["a", "b"] ++ ["g"])) ∧
    pathOf (DiscoverType.Model ["api", "a", "User"]) = "api" :: (["a"] ++ ["User"]) ∧
    pathOf (DiscoverType.CustomModelImpl ["api", "s", "W"]) = "api" :: (["s"] ++ ["W"]) := by
  refine ⟨claim_C6.1 ["api"] "x", ?_, ?_, ?_⟩
  · exact claim_C6.2.1 ⟨"op", "M", "R"⟩ "api" ["a", "b"] ⟨[⟨["op"], none⟩], "g"⟩
      [DiscoverType.Fn ["api", "a", "b", "g"]] (DiscoverType.Fn ["api", "a", "b", "g"])
      rfl (by simp)
  · exact claim_C6.2.2.1 ⟨"op", "M", "R"⟩ "api" ["a"] "User" [] [⟨["derive"], some [["M"]]⟩]
      [DiscoverType.Model ["api", "a", "User"]] (DiscoverType.Model ["api", "a", "User"])
      rfl (by simp)
  · exact claim_C6.2.2.2.2 ⟨"op", "M", "R"⟩ "api" ["s"] ⟨[], some ["M"], "W"⟩
      [DiscoverType.CustomModelImpl ["api", "s", "W"]]
      (DiscoverType.CustomModelImpl ["api", "s", "W"]) rfl (by simp)

/-- C9: the walker handles exactly the four tracked declaration shapes and
ignores everything else; an empty-bodied namespace yields no entries; a
namespace with inline content is recursed into with the path extended by
its own name; per-item results are concatenated in declaration order. -/
theorem claim_C9 (params : Parameters) (p : List String) :
    (parse_item params p Item.other = Except.ok []) ∧
    (∀ name, parse_item params p (Item.mod name none) = Except.ok []) ∧
    (∀ name cs, parse_item params p (Item.mod name (some cs))
        = parse_module_items params (p ++ [name]) cs) ∧
    (parse_module_items params p [] = Except.ok []) ∧
    (∀ i rest v acc, parse_item params p i = Except.ok v →
      parse_module_items params p rest = Except.ok acc →
      parse_module_items params p (i :: rest) = Except.ok (v ++ acc)) := by
  refine ⟨rfl, fun name => rfl, fun name cs => rfl, rfl, ?_⟩
  intro i rest v acc hv hacc
  unfold parse_module_items
  rw [hv, hacc]
  rfl

/-- C9 witness: a concrete mixed module — an ignored declaration shape, an
empty-bodied namespace, a namespace with inline content, and ordered
concatenation of two declarations' results. -/
theorem claim_C9_witness :
    parse_item ⟨"op", "M", "R"⟩ ["api"] Item.other = Except.ok [] ∧
    parse_item ⟨"op", "M", "R"⟩ ["api"] (Item.mod "empty" none) = Except.ok [] ∧
    parse_item ⟨"op", "M", "R"⟩ ["api"] (Item.mod "inner" (some [Item.other]))
      = parse_module_items ⟨"op", "M", "R"⟩ ["api", "inner"] [Item.other] ∧
    parse_module_items ⟨"op", "M", "R"⟩ ["api"]
        [Item.fn ⟨[⟨["op"], none⟩], "f"⟩, Item.fn ⟨[⟨["op"], none⟩], "g"⟩]
      = Except.ok [DiscoverType.Fn ["api", "f"], DiscoverType.Fn ["api", "g"]] := by
  have h := claim_C9 ⟨"op", "M", "R"⟩ ["api"]
  refine ⟨h.1, h.2.1 "empty", h.2.2.1 "inner" [Item.other], ?_⟩
  have h2 := h.2.2.2.2 (Item.fn ⟨[⟨["op"], none⟩], "f"⟩) [Item.fn ⟨[⟨["op"], none⟩], "g"⟩]
    [DiscoverType.Fn ["api", "f"]] [DiscoverType.Fn ["api", "g"]] rfl rfl
  exact h2


theorem parse_from_attr_loop_ok (params : Parameters) (name : List String) :
    ∀ (attrs : List Attr) (out : List DiscoverType),
      attrs.all (fun a => !(isIdent a.path "derive") || a.args.isSome) = true →
      ∃ r, parse_from_attr_loop params name out attrs = Except.ok r := by
  intro attrs
  induction attrs with
  | nil => intro out _; exact ⟨out, rfl⟩
  | cons a rest ih =>
    intro out hall
    have ha : (!(isIdent a.path "derive") || a.args.isSome) = true := by
      simp only [List.all_cons, Bool.and_eq_true] at hall
      exact hall.1
    have hrest : rest.all (fun a => !(isIdent a.path "derive") || a.args.isSome) = true := by
      simp only [List.all_cons, Bool.and_eq_true] at hall
      exact hall.2
    by_cases hig : isIdent a.path "utoipa_ignore" = true
    · exact ⟨[], by rw [parse_from_attr_loop_cons, if_pos hig]⟩
    · have hig' : isIdent a.path "utoipa_ignore" = false := by
        cases hx : isIdent a.path "utoipa_ignore" with
        | false => rfl
        | true => exact absurd hx hig
      by_cases hd : isIdent a.path "derive" = true
      · obtain ⟨l, hl⟩ : ∃ l, a.args = some l := by
          rw [hd] at ha
          simp only [Bool.not_true, Bool.false_or] at ha
          cases hx : a.args with
          | none => rw [hx] at ha; simp at ha
          | some l => exact ⟨l, rfl⟩
        obtain ⟨r, hr⟩ :=
          ih (out ++ l.foldl (fun o nm => o ++ classify_nested params name nm) []) hrest
        refine ⟨r, ?_⟩
        rw [parse_from_attr_loop_cons, if_neg (by simp [hig']), if_pos hd, hl]
        exact hr
      · have hd' : isIdent a.path "derive" = false := by
          cases hx : isIdent a.path "derive" with
          | false => rfl
          | true => exact absurd hx hd
        obtain ⟨r, hr⟩ := ih out hrest
        refine ⟨r, ?_⟩
        rw [parse_from_attr_loop_cons, if_neg (by simp [hig']), if_neg (by simp [hd'])]
        exact hr

mutual

theorem parse_item_wf_ok (params : Parameters) :
    ∀ (p : List String) (it : Item), item_wf it = true →
      ∃ r, parse_item params p it = Except.ok r
  | _, Item.mod _ none, _ => ⟨[], rfl⟩
  | p, Item.mod name (some cs), h => by
    have h' : items_wf cs = true := h
    obtain ⟨r, hr⟩ := parse_module_items_wf_ok params (build_path p name) cs h'
    exact ⟨r, hr⟩
  | p, Item.fn f, _ => ⟨_, rfl⟩
  | p, Item.struct n g attrs, h => by
    show ∃ r, parse_from_attr attrs (build_path p n) g params = Except.ok r
    by_cases hg : g.isEmpty = true
    · obtain ⟨r, hr⟩ := parse_from_attr_loop_ok params (build_path p n) attrs [] h
      refine ⟨r, ?_⟩
      unfold parse_from_attr
      rw [if_neg (by simp [hg])]
      exact hr
    · refine ⟨[], ?_⟩
      unfold parse_from_attr
      rw [if_pos (by simp only [Bool.not_eq_true] at hg; simp [hg])]
  | p, Item.enum n g attrs, h => by
    show ∃ r, parse_from_attr attrs (build_path p n) g params = Except.ok r
    by_cases hg : g.isEmpty = true
    · obtain ⟨r, hr⟩ := parse_from_attr_loop_ok params (build_path p n) attrs [] h
      refine ⟨r, ?_⟩
      unfold parse_from_attr
      rw [if_neg (by simp [hg])]
      exact hr
    · refine ⟨[], ?_⟩
      unfold parse_from_attr
      rw [if_pos (by simp only [Bool.not_eq_true] at hg; simp [hg])]
  | p, Item.impl im, _ => ⟨_, rfl⟩
  | _, Item.other, _ => ⟨[], rfl⟩

theorem parse_module_items_wf_ok (params : Parameters) :
    ∀ (p : List String) (l : List Item), items_wf l = true →
      ∃ r, parse_module_items params p l = Except.ok r
  | _, [], _ => ⟨[], rfl⟩
  | p, i :: rest, h => by
    have h1 : item_wf i = true := by
      have := h
      simp only [items_wf, Bool.and_eq_true] at this
      exact this.1
    have h2 : items_wf rest = true := by
      have := h
      simp only [items_wf, Bool.and_eq_true] at this
      exact this.2
    obtain ⟨v, hv⟩ := parse_item_wf_ok params p i h1
    obtain ⟨acc, hacc⟩ := parse_module_items_wf_ok params p rest h2
    refine ⟨v ++ acc, ?_⟩
    unfold parse_module_items
    rw [hv, hacc]
    rfl

end

theorem mapM_ok {α β : Type} (g : α → Except String β) :
    ∀ (l : List α), (∀ e ∈ l, ∃ r, g e = Except.ok r) →
      ∃ rs, l.mapM g = Except.ok rs := by
  intro l
  induction l with
  | nil => intro _; exact ⟨[], rfl⟩
  | cons x xs ih =>
    intro h
    obtain ⟨r, hr⟩ := h x (by simp)
    obtain ⟨rs, hrs⟩ := ih (fun e he => h e (by simp [he]))
    refine ⟨r :: rs, ?_⟩
    rw [List.mapM_cons, hr, hrs]
    rfl

/-- C8: discovery aborts fatally, with no result at all, exactly on a
collector failure or a malformed composite (derive) annotation; when the
collector succeeds and every derive annotation parses, discovery returns a
result; an annotation or impl block matching none of the recognized names
is silently excluded, not an error. -/
theorem claim_C8 :
    (∀ params : Parameters,
      discover_from_file none params = Except.error "Failed to parse file") ∧
    (∀ (fs : List (List String × List Item)) (params : Parameters),
      fs.all (fun e => items_wf e.2) = true →
      ∃ r, discover_from_file (some fs) params = Except.ok r) ∧
    (∀ (params : Parameters) (name : List String) (rest : List Attr),
      parse_from_attr (⟨["derive"], none⟩ :: rest) name [] params
        = Except.error "Failed to parse derive attribute") ∧
    (∀ (params : Parameters) (name : List String) (attr : Attr),
      isIdent attr.path "utoipa_ignore" = false →
      isIdent attr.path "derive" = false →
      parse_from_attr [attr] name [] params = Except.ok []) ∧
    (∀ (params : Parameters) (p segs : List String) (t : String) (a : List Attr)
        (last_seg : String),
      segs.getLast? = some last_seg →
      last_seg ≠ params.schema_attribute_name →
      last_seg ≠ params.response_attribute_name →
      parse_from_impl ⟨a, some segs, t⟩ p params = []) := by
  refine ⟨fun params => rfl, ?_, fun params name rest => rfl, ?_, ?_⟩
  · intro fs params hall
    rw [List.all_eq_true] at hall
    obtain ⟨rs, hrs⟩ := mapM_ok (fun e => parse_module_items params e.1 e.2) fs
      (fun e he => parse_module_items_wf_ok params e.1 e.2 (by simpa using hall e he))
    refine ⟨aggregate rs.flatten, ?_⟩
    show (do
        let perFile ← List.mapM (fun e => parse_module_items params e.1 e.2) fs
        Except.ok (aggregate perFile.flatten)) = Except.ok (aggregate rs.flatten)
    rw [hrs]
    rfl
  · intro params name attr h1 h2
    show parse_from_attr_loop params name [] [attr] = Except.ok []
    rw [parse_from_attr_loop_cons, if_neg (by simp [h1]), if_neg (by simp [h2])]
    rfl
  · intro params p segs t a last_seg hlast h1 h2
    simp [parse_from_impl, hlast, h1, h2]

/-- C8 witness: a failing collector, a well-formed discovery run, a
malformed derive annotation, an unrecognized plain annotation, and an
unrecognized trait, each at a concrete input. -/
theorem claim_C8_witness :
    discover_from_file none ⟨"op", "M", "R"⟩ = Except.error "Failed to parse file" ∧
    (∃ r, discover_from_file (some [(["api"], [Item.fn ⟨[⟨["op"], none⟩], "f"⟩])])
        ⟨"op", "M", "R"⟩ = Except.ok r) ∧
    parse_from_attr [⟨["derive"], none⟩] ["api", "U"] [] ⟨"op", "M", "R"⟩
      = Except.error "Failed to parse derive attribute" ∧
    parse_from_attr [⟨["unknown"], none⟩] ["api", "U"] [] ⟨"op", "M", "R"⟩ = Except.ok [] ∧
    parse_from_impl ⟨[], some ["Unknown"], "W"⟩ ["api"] ⟨"op", "M", "R"⟩ = [] := by
  refine ⟨claim_C8.1 ⟨"op", "M", "R"⟩, ?_, claim_C8.2.2.1 ⟨"op", "M", "R"⟩ ["api", "U"] [], ?_, ?_⟩
  · exact claim_C8.2.1 [(["api"], [Item.fn ⟨[⟨["op"], none⟩], "f"⟩])] ⟨"op", "M", "R"⟩ (by decide)
  · exact claim_C8.2.2.2.1 ⟨"op", "M", "R"⟩ ["api", "U"] ⟨["unknown"], none⟩ (by decide) (by decide)
  · exact claim_C8.2.2.2.2 ⟨"op", "M", "R"⟩ ["api"] ["Unknown"] "W" [] "Unknown" rfl
      (by decide) (by decide)
